import Mathlib

/-!
Verification of the gore-generation pipeline of `parachute/design/generate_gore.py`.

The Python source is shallowly embedded below: machine floats become real
numbers (`ℝ`), numpy arrays become Lean lists, and the module-level script is
modelled as an explicit `Except`-valued run function.  Each claim about the
specification is then stated and settled as a theorem about these definitions.
-/

namespace ParachuteGore

open Real

/-- A 3-D point `(x, y, z)`. -/
abbrev Point3 : Type := ℝ × ℝ × ℝ

/-- Embedding of `calculate_hemispherical_gore_coordinates(radius, num_gores,
num_points)`: for `i` in `0..num_points` it emits
`(π·(radius·sin φ)/num_gores, (i/num_points)·(π·radius/2))` with
`φ = (i/num_points)·(π/2)`.  Mirrors the Python loop body line for line. -/
noncomputable def calculate_hemispherical_gore_coordinates
    (radius : ℝ) (num_gores : ℕ) (num_points : ℕ) : List (ℝ × ℝ) :=
  (List.range (num_points + 1)).map (fun (i : ℕ) =>
    let height : ℝ := (Real.pi * radius) / 2
    let y : ℝ := ((i : ℝ) / (num_points : ℝ)) * height
    let phi : ℝ := ((i : ℝ) / (num_points : ℝ)) * (Real.pi / 2)
    let r : ℝ := radius * Real.sin phi
    ((Real.pi * r) / (num_gores : ℝ), y))

/-- The `i`-th gore-curve sample, in closed form. -/
noncomputable def goreSample (radius : ℝ) (num_gores : ℕ) (num_points : ℕ) (i : ℕ) : ℝ × ℝ :=
  ((Real.pi * (radius * Real.sin (((i : ℝ) / (num_points : ℝ)) * (Real.pi / 2)))) / (num_gores : ℝ),
    ((i : ℝ) / (num_points : ℝ)) * ((Real.pi * radius) / 2))

lemma gore_coords_get? (radius : ℝ) (num_gores num_points i : ℕ) (hi : i < num_points + 1) :
    (calculate_hemispherical_gore_coordinates radius num_gores num_points).get? i =
      some (goreSample radius num_gores num_points i) := by
  rw [calculate_hemispherical_gore_coordinates, List.get?_eq_getElem?, List.getElem?_map,
    List.getElem?_range hi]
  rfl

lemma gore_coords_length (radius : ℝ) (num_gores num_points : ℕ) :
    (calculate_hemispherical_gore_coordinates radius num_gores num_points).length
      = num_points + 1 := by
  rw [calculate_hemispherical_gore_coordinates]
  simp only [List.length_map, List.length_range]

/-- C5: the gore curve has `resolution + 1` samples, its height coordinates are
monotonically non-decreasing, the first height is `0` and the last height is
`π·radius/2`. -/
theorem gore_curve_sample_count_and_height_monotone
    (radius : ℝ) (num_gores : ℕ) (num_points : ℕ)
    (hr : 0 < radius) (hg : 1 ≤ num_gores) (hn : 1 ≤ num_points) :
    (calculate_hemispherical_gore_coordinates radius num_gores num_points).length
        = num_points + 1 ∧
    (∀ i j : ℕ, i ≤ j →
      ∀ p q : ℝ × ℝ,
        (calculate_hemispherical_gore_coordinates radius num_gores num_points).get? i = some p →
        (calculate_hemispherical_gore_coordinates radius num_gores num_points).get? j = some q →
        p.2 ≤ q.2) ∧
    (∀ p : ℝ × ℝ,
      (calculate_hemispherical_gore_coordinates radius num_gores num_points).get? 0 = some p →
      p.2 = 0) ∧
    (∀ p : ℝ × ℝ,
      (calculate_hemispherical_gore_coordinates radius num_gores num_points).get? num_points
          = some p →
      p.2 = Real.pi * radius / 2) := by
  refine ⟨gore_coords_length radius num_gores num_points, ?_, ?_, ?_⟩
  · intro i j hij p q hp hq
    have hjlen : j < num_points + 1 := by
      have := List.get?_eq_some.mp hq
      simpa [gore_coords_length] using this.1
    have hilen : i < num_points + 1 := lt_of_le_of_lt hij hjlen
    rw [gore_coords_get? radius num_gores num_points i hilen] at hp
    rw [gore_coords_get? radius num_gores num_points j hjlen] at hq
    obtain rfl : goreSample radius num_gores num_points i = p := Option.some.inj hp
    obtain rfl : goreSample radius num_gores num_points j = q := Option.some.inj hq
    show ((i : ℝ) / (num_points : ℝ)) * ((Real.pi * radius) / 2)
        ≤ ((j : ℝ) / (num_points : ℝ)) * ((Real.pi * radius) / 2)
    have hpr : (0 : ℝ) ≤ (Real.pi * radius) / 2 := by
      have := Real.pi_pos
      positivity
    have hnpos : (0 : ℝ) < (num_points : ℝ) := by
      exact_mod_cast Nat.lt_of_lt_of_le Nat.zero_lt_one hn
    have hmono : ((i : ℝ) / (num_points : ℝ)) ≤ ((j : ℝ) / (num_points : ℝ)) := by
      gcongr
    exact mul_le_mul_of_nonneg_right hmono hpr
  · intro p hp
    rw [gore_coords_get? radius num_gores num_points 0 (Nat.succ_pos _)] at hp
    obtain rfl : goreSample radius num_gores num_points 0 = p := Option.some.inj hp
    show ((0 : ℕ) : ℝ) / (num_points : ℝ) * ((Real.pi * radius) / 2) = 0
    simp
  · intro p hp
    rw [gore_coords_get? radius num_gores num_points num_points (Nat.lt_succ_self _)] at hp
    obtain rfl : goreSample radius num_gores num_points num_points = p := Option.some.inj hp
    have hn0 : (num_points : ℝ) ≠ 0 := by
      exact_mod_cast Nat.one_le_iff_ne_zero.mp hn
    show ((num_points : ℝ) / (num_points : ℝ)) * ((Real.pi * radius) / 2) = Real.pi * radius / 2
    rw [div_self hn0, one_mul]

/-- C5 witness: the theorem applied at `radius = 1`, `num_gores = 12`,
`resolution = 2`; the sample count evaluates to `3`. -/
theorem gore_curve_sample_count_witness :
    (calculate_hemispherical_gore_coordinates 1 12 2).length = 2 + 1 :=
  (gore_curve_sample_count_and_height_monotone 1 12 2 (by norm_num) (by norm_num)
    (by norm_num)).1

/-- C6: the width of the last gore-curve sample (at `phi = π/2`, the equator)
equals `π·radius/num_gores` exactly. -/
theorem gore_curve_equator_width (radius : ℝ) (num_gores num_points : ℕ)
    (hr : 0 < radius) (hg : 1 ≤ num_gores) (hn : 1 ≤ num_points) :
    ∀ p : ℝ × ℝ,
      (calculate_hemispherical_gore_coordinates radius num_gores num_points).get? num_points
          = some p →
      p.1 = Real.pi * radius / (num_gores : ℝ) := by
  intro p hp
  rw [gore_coords_get? radius num_gores num_points num_points (Nat.lt_succ_self _)] at hp
  obtain rfl : goreSample radius num_gores num_points num_points = p := Option.some.inj hp
  have hn0 : (num_points : ℝ) ≠ 0 := by
    exact_mod_cast Nat.one_le_iff_ne_zero.mp hn
  show Real.pi * (radius * Real.sin (((num_points : ℝ) / (num_points : ℝ)) * (Real.pi / 2)))
      / (num_gores : ℝ) = Real.pi * radius / (num_gores : ℝ)
  rw [div_self hn0, one_mul, Real.sin_pi_div_two, mul_one]

/-- C6 witness: at `radius = 1`, `num_gores = 12`, `resolution = 2` the last
sample's width is `π·1/12`. -/
theorem gore_curve_equator_width_witness :
    (goreSample 1 12 2 2).1 = Real.pi * 1 / ((12 : ℕ) : ℝ) :=
  gore_curve_equator_width 1 12 2 (by norm_num) (by norm_num) (by norm_num) _
    (gore_coords_get? 1 12 2 2 (by norm_num))

/-! ## 3-D gore surface patch and canopy assembly -/

/-- Embedding of `np.linspace(a, b, n)`: `n` evenly spaced samples from `a` to
`b` inclusive; a single sample is the start point, matching numpy. -/
noncomputable def linspace (a b : ℝ) (n : ℕ) : List ℝ :=
  (List.range n).map (fun (i : ℕ) =>
    if n = 1 then a else a + (b - a) * (i : ℝ) / ((n - 1 : ℕ) : ℝ))

lemma linspace_length (a b : ℝ) (n : ℕ) : (linspace a b n).length = n := by
  rw [linspace]
  simp only [List.length_map, List.length_range]

lemma linspace_get? (a b : ℝ) (n i : ℕ) (hi : i < n) :
    (linspace a b n).get? i =
      some (if n = 1 then a else a + (b - a) * (i : ℝ) / ((n - 1 : ℕ) : ℝ)) := by
  rw [linspace, List.get?_eq_getElem?, List.getElem?_map, List.getElem?_range hi]
  rfl

/-- Embedding of `generate_gore_mesh(radius, phi_steps, theta_steps, num_gores,
inflation_factor)`.  `np.meshgrid(phi, theta)` with default `xy` indexing
produces arrays of shape `(theta_steps, phi_steps)` whose entry at
`(t, p)` pairs `theta[t]` with `phi[p]`; the grid is therefore a list of
`theta_steps` rows, each row holding `phi_steps` points
`(radius·sin φ·sin θ, radius·sin φ·cos θ, radius·inflation_factor·cos φ)`. -/
noncomputable def generate_gore_mesh (radius : ℝ) (phi_steps theta_steps num_gores : ℕ)
    (inflation_factor : ℝ) : List (List Point3) :=
  (linspace (-(Real.pi / (num_gores : ℝ))) (Real.pi / (num_gores : ℝ)) theta_steps).map
    (fun θ =>
      (linspace 0 (Real.pi / 2) phi_steps).map (fun φ =>
        (radius * Real.sin φ * Real.sin θ,
         radius * Real.sin φ * Real.cos θ,
         radius * inflation_factor * Real.cos φ)))

/-- Rotation of a 3-D point about the polar (z) axis by `angle`, as applied in
`assemble_full_parachute`. -/
noncomputable def rotateZ (angle : ℝ) (v : Point3) : Point3 :=
  (v.1 * Real.cos angle - v.2.1 * Real.sin angle,
   v.1 * Real.sin angle + v.2.1 * Real.cos angle,
   v.2.2)

/-- Triangle index buffer over one `rows × cols` grid starting at vertex
`offset`: two triangles `[a,b,c]` and `[b,d,c]` per interior cell, exactly as
in the nested loops of `assemble_full_parachute`. -/
def gridFaces (offset rows cols : ℕ) : List (List ℕ) :=
  (List.range (rows - 1)).flatMap (fun i =>
    (List.range (cols - 1)).flatMap (fun j =>
      let a := offset + i * cols + j
      let b := a + 1
      let c := a + cols
      let d := c + 1
      [[a, b, c], [b, d, c]]))

/-- Embedding of `assemble_full_parachute`: for each gore `g` the patch grid is
regenerated, rotated by `g·2π/num_gores`, flattened row-major into the global
vertex buffer, and faces are emitted over the grid with a running vertex
offset of `theta_steps·phi_steps` per gore (the grid has `theta_steps` rows
and `phi_steps` columns). -/
noncomputable def assemble_full_parachute (radius : ℝ) (num_gores phi_steps theta_steps : ℕ)
    (inflation_factor : ℝ) : List Point3 × List (List ℕ) :=
  ((List.range num_gores).flatMap (fun (g : ℕ) =>
      let angle := (g : ℝ) * 2 * Real.pi / (num_gores : ℝ)
      ((generate_gore_mesh radius phi_steps theta_steps num_gores inflation_factor).flatten).map
        (rotateZ angle)),
   (List.range num_gores).flatMap (fun (g : ℕ) =>
      gridFaces (g * (theta_steps * phi_steps)) theta_steps phi_steps))

lemma length_flatMap_const {α β : Type} (l : List α) (f : α → List β) (k : ℕ)
    (h : ∀ a ∈ l, (f a).length = k) : (l.flatMap f).length = l.length * k := by
  induction l with
  | nil => simp
  | cons x xs ih =>
      rw [List.flatMap_cons, List.length_append, h x (List.mem_cons_self x xs),
        ih (fun a ha => h a (List.mem_cons_of_mem x ha)), List.length_cons,
        Nat.succ_mul, Nat.add_comm]

lemma grid_flatten_length (radius : ℝ) (phi_steps theta_steps num_gores : ℕ)
    (inflation_factor : ℝ) :
    ((generate_gore_mesh radius phi_steps theta_steps num_gores inflation_factor).flatten).length
      = theta_steps * phi_steps := by
  rw [generate_gore_mesh, ← List.flatMap_def,
    length_flatMap_const _ _ phi_steps (fun θ _ => by
      rw [List.length_map, linspace_length]),
    linspace_length]

lemma gridFaces_length (offset rows cols : ℕ) :
    (gridFaces offset rows cols).length = (rows - 1) * ((cols - 1) * 2) := by
  rw [gridFaces,
    length_flatMap_const _ _ ((cols - 1) * 2) (fun i _ => by
      rw [length_flatMap_const _ _ 2 (fun j _ => by rfl), List.length_range]),
    List.length_range]

/-- C1: the assembled canopy mesh has exactly `numGores·phiSteps·thetaSteps`
vertices and exactly `numGores·2·(phiSteps-1)·(thetaSteps-1)` triangular
faces. -/
theorem assemble_full_parachute_counts (radius inflation_factor : ℝ)
    (num_gores phi_steps theta_steps : ℕ)
    (hg : 1 ≤ num_gores) (hps : 2 ≤ phi_steps) (hts : 2 ≤ theta_steps) :
    (assemble_full_parachute radius num_gores phi_steps theta_steps
        inflation_factor).1.length = num_gores * phi_steps * theta_steps ∧
    (assemble_full_parachute radius num_gores phi_steps theta_steps
        inflation_factor).2.length
      = num_gores * 2 * (phi_steps - 1) * (theta_steps - 1) := by
  constructor
  · rw [assemble_full_parachute]
    rw [length_flatMap_const _ _ (theta_steps * phi_steps) (fun g _ => by
      rw [List.length_map, grid_flatten_length]), List.length_range]
    ring
  · rw [assemble_full_parachute]
    rw [length_flatMap_const _ _ ((theta_steps - 1) * ((phi_steps - 1) * 2)) (fun g _ => by
      rw [gridFaces_length]), List.length_range]
    generalize phi_steps - 1 = a
    generalize theta_steps - 1 = b
    ring

/-- C1 witness: at `radius = 1`, `numGores = 2`, `phiSteps = 2`,
`thetaSteps = 3`, `inflationFactor = 1` the mesh has `2·2·3 = 12` vertices and
`2·2·1·2 = 8` faces. -/
theorem assemble_full_parachute_counts_witness :
    (assemble_full_parachute 1 2 2 3 1).1.length = 2 * 2 * 3 ∧
    (assemble_full_parachute 1 2 2 3 1).2.length = 2 * 2 * (2 - 1) * (3 - 1) :=
  assemble_full_parachute_counts 1 1 2 2 3 (by norm_num) (by norm_num) (by norm_num)

lemma list_get?_map {α β : Type} (f : α → β) (l : List α) (i : ℕ) :
    (l.map f).get? i = (l.get? i).map f := by
  simp [List.get?_eq_getElem?, List.getElem?_map]

/-- The `p`-th entry of `np.linspace(0, π/2, phi_steps)`, in closed form. -/
noncomputable def phiSampleVal (phi_steps p : ℕ) : ℝ :=
  if phi_steps = 1 then 0 else (Real.pi / 2) * (p : ℝ) / ((phi_steps - 1 : ℕ) : ℝ)

/-- The `t`-th entry of `np.linspace(-π/num_gores, π/num_gores, theta_steps)`,
in closed form. -/
noncomputable def thetaSampleVal (num_gores theta_steps t : ℕ) : ℝ :=
  if theta_steps = 1 then -(Real.pi / (num_gores : ℝ))
  else -(Real.pi / (num_gores : ℝ))
    + (2 * (Real.pi / (num_gores : ℝ))) * (t : ℝ) / ((theta_steps - 1 : ℕ) : ℝ)

lemma phi_entry_eq (phi_steps p : ℕ) :
    (if phi_steps = 1 then (0 : ℝ)
      else 0 + (Real.pi / 2 - 0) * (p : ℝ) / ((phi_steps - 1 : ℕ) : ℝ))
      = phiSampleVal phi_steps p := by
  rw [phiSampleVal]
  split_ifs with h
  · rfl
  · ring_nf

lemma theta_entry_eq (num_gores theta_steps t : ℕ) :
    (if theta_steps = 1 then -(Real.pi / (num_gores : ℝ))
      else -(Real.pi / (num_gores : ℝ))
        + (Real.pi / (num_gores : ℝ) - -(Real.pi / (num_gores : ℝ))) * (t : ℝ)
            / ((theta_steps - 1 : ℕ) : ℝ))
      = thetaSampleVal num_gores theta_steps t := by
  rw [thetaSampleVal]
  split_ifs with h
  · rfl
  · ring_nf

/-- C4 counterexample: with `phiSteps = 2` and `thetaSteps = 3` the grid has
`3` rows, not `phiSteps = 2` rows — `np.meshgrid` with default `xy` indexing
puts theta along the rows and phi along the columns, the transpose of what the
claim states. -/
theorem generate_gore_mesh_rows_counterexample :
    ¬ ((generate_gore_mesh 1 2 3 1 1).length = 2) := by
  rw [generate_gore_mesh, List.length_map, linspace_length]
  norm_num

/-- C4 (amended): the gore patch is a 2-D grid with rows = theta resolution
(`thetaSteps`) and cols = phi resolution (`phiSteps`); the point at row `t`
and column `p` equals
`radius·(sin φ sin θ, sin φ cos θ, inflationFactor·cos φ)` where `φ` is the
`p`-th of `phiSteps` uniform samples of `[0, π/2]` and `θ` is the `t`-th of
`thetaSteps` uniform samples of `[-π/numGores, π/numGores]`. -/
theorem generate_gore_mesh_grid (radius inflation_factor : ℝ)
    (num_gores phi_steps theta_steps : ℕ) (hg : 1 ≤ num_gores) :
    (generate_gore_mesh radius phi_steps theta_steps num_gores
        inflation_factor).length = theta_steps ∧
    (∀ row ∈ generate_gore_mesh radius phi_steps theta_steps num_gores inflation_factor,
        row.length = phi_steps) ∧
    (∀ t p : ℕ, t < theta_steps → p < phi_steps →
      ((generate_gore_mesh radius phi_steps theta_steps num_gores
          inflation_factor).get? t).bind (fun row => row.get? p)
        = some (radius * Real.sin (phiSampleVal phi_steps p)
                  * Real.sin (thetaSampleVal num_gores theta_steps t),
                radius * Real.sin (phiSampleVal phi_steps p)
                  * Real.cos (thetaSampleVal num_gores theta_steps t),
                radius * inflation_factor * Real.cos (phiSampleVal phi_steps p))) := by
  refine ⟨?_, ?_, ?_⟩
  · rw [generate_gore_mesh, List.length_map, linspace_length]
  · intro row hrow
    rw [generate_gore_mesh] at hrow
    obtain ⟨θ, hθ, rfl⟩ := List.mem_map.mp hrow
    rw [List.length_map, linspace_length]
  · intro t p ht hp
    rw [generate_gore_mesh, list_get?_map, linspace_get? _ _ _ t ht, Option.map_some',
      Option.some_bind, list_get?_map, linspace_get? _ _ _ p hp, Option.map_some',
      theta_entry_eq num_gores theta_steps t, phi_entry_eq phi_steps p]

/-- C4 (amended) witness: at `radius = 1`, `numGores = 1`,
`phiSteps = thetaSteps = 1` the single grid entry is given by the sample
formula. -/
theorem generate_gore_mesh_grid_witness :
    ((generate_gore_mesh 1 1 1 1 1).get? 0).bind (fun row => row.get? 0)
      = some (1 * Real.sin (phiSampleVal 1 0) * Real.sin (thetaSampleVal 1 1 0),
              1 * Real.sin (phiSampleVal 1 0) * Real.cos (thetaSampleVal 1 1 0),
              1 * 1 * Real.cos (phiSampleVal 1 0)) :=
  (generate_gore_mesh_grid 1 1 1 1 1 (by norm_num)).2.2 0 0 (by norm_num) (by norm_num)

/-! ## Mesh data model and the spill-hole filter of `export_parachute_3d_mesh` -/

/-- A triangulated mesh: a vertex buffer and a face buffer of index triples,
as handed to `trimesh.Trimesh(vertices=..., faces=...)`. -/
structure Mesh where
  vertices : List Point3
  faces : List (List ℕ)

/-- `np.linalg.norm(vertices[:, :2], axis=1)` for one vertex: its planar
distance from the polar axis. -/
noncomputable def planarDist (v : Point3) : ℝ :=
  Real.sqrt (v.1 ^ 2 + v.2.1 ^ 2)

/-- One entry of `keep_mask`: `radial_distance > spill_m / 2`. -/
noncomputable def keepVertex (spill_m : ℝ) (v : Point3) : Bool :=
  decide (planarDist v > spill_m / 2)

/-- `keep_mask` read at an old vertex index (out-of-range reads, which would
fault in numpy, are modelled as `false`; faces produced by the assembler are
always in range). -/
noncomputable def keepIndex (vs : List Point3) (spill_m : ℝ) (i : ℕ) : Bool :=
  match vs.get? i with
  | some v => keepVertex spill_m v
  | none => false

/-- The `old_to_new` remap table: `np.where(keep_mask)[0]` is ascending, and
position `k` of it receives new index `k`, so a kept old index `i` is sent to
the number of kept indices below `i`. -/
noncomputable def oldToNew (vs : List Point3) (spill_m : ℝ) (i : ℕ) : ℕ :=
  ((List.range i).filter (keepIndex vs spill_m)).length

/-- The spill-hole filtering step of `export_parachute_3d_mesh`: a no-op
unless `spill_m > 0`; otherwise vertices failing the radial test are dropped,
a face survives only if all of its vertices do, and surviving faces are
remapped through `old_to_new`. -/
noncomputable def applySpillHole (mesh : Mesh) (spill_m : ℝ) : Mesh :=
  if 0 < spill_m then
    { vertices := mesh.vertices.filter (keepVertex spill_m)
      faces := (mesh.faces.filter (fun f => f.all (keepIndex mesh.vertices spill_m))).map
        (fun f => f.map (oldToNew mesh.vertices spill_m)) }
  else mesh

/-- Embedding of `export_parachute_3d_mesh`: assemble with the hard-coded
grid resolutions `phi_steps = 100`, `theta_steps = 50`, then apply the
spill-hole filter.  The trimesh construction and STL write are external I/O
and carry no further geometry. -/
noncomputable def export_parachute_3d_mesh (radius : ℝ) (num_gores : ℕ)
    (spill_m : ℝ) (inflation_factor : ℝ) : Mesh :=
  applySpillHole
    ⟨(assemble_full_parachute radius num_gores 100 50 inflation_factor).1,
     (assemble_full_parachute radius num_gores 100 50 inflation_factor).2⟩ spill_m

lemma keepIndex_lt_length {vs : List Point3} {spill_m : ℝ} {i : ℕ}
    (h : keepIndex vs spill_m i = true) : i < vs.length := by
  rw [keepIndex] at h
  rcases hv : vs.get? i with _ | v
  · rw [hv] at h
    simp at h
  · exact (List.get?_eq_some.mp hv).1

lemma rank_lt_rank (p : ℕ → Bool) {i j : ℕ} (hij : i < j) (hpi : p i = true) :
    ((List.range i).filter p).length < ((List.range j).filter p).length := by
  have hj : j = i + (j - i) := by omega
  rw [hj, List.range_add, List.filter_append, List.length_append]
  have hmem : i ∈ (((List.range (j - i)).map (i + ·)).filter p) := by
    refine List.mem_filter.mpr ⟨List.mem_map.mpr ⟨0, ?_, ?_⟩, hpi⟩
    · exact List.mem_range.mpr (by omega)
    · omega
  have hpos : 0 < (((List.range (j - i)).map (i + ·)).filter p).length :=
    List.length_pos.mpr (fun hnil => by rw [hnil] at hmem; exact List.not_mem_nil i hmem)
  omega

lemma map_rank_filter_range (p : ℕ → Bool) (n : ℕ) :
    ((List.range n).filter p).map (fun i => ((List.range i).filter p).length)
      = List.range (((List.range n).filter p).length) := by
  induction n with
  | zero => simp
  | succ n ih =>
      rw [List.range_succ, List.filter_append, List.map_append, ih, List.length_append]
      cases hpn : p n
      · simp [List.filter_cons, hpn]
      · simp only [List.filter_cons, hpn, ite_true, List.filter_nil, List.map_cons,
          List.map_nil, List.length_cons, List.length_nil]
        rw [List.range_succ]

lemma range_filter_keep_length (vs : List Point3) (spill_m : ℝ) :
    ((List.range vs.length).filter (keepIndex vs spill_m)).length
      = (vs.filter (keepVertex spill_m)).length := by
  induction vs using List.reverseRecOn with
  | nil => simp
  | append_singleton ys y ih =>
      rw [List.length_append, List.length_cons, List.length_nil, Nat.zero_add,
        List.range_succ, List.filter_append, List.filter_append, List.length_append,
        List.length_append]
      have hinit : (List.range ys.length).filter (keepIndex (ys ++ [y]) spill_m)
          = (List.range ys.length).filter (keepIndex ys spill_m) := by
        apply List.filter_congr
        intro i hi
        have hilt : i < ys.length := List.mem_range.mp hi
        rw [keepIndex, keepIndex, List.get?_append hilt]
      have hlast : keepIndex (ys ++ [y]) spill_m ys.length = keepVertex spill_m y := by
        rw [keepIndex, List.get?_append_right (Nat.le_refl _), Nat.sub_self]
        rfl
      rw [hinit, ih]
      congr 1
      rw [List.filter_cons, List.filter_cons, hlast]
      cases hky : keepVertex spill_m y <;> simp

lemma keepVertex_eq_true_iff {spill_m : ℝ} {v : Point3} :
    keepVertex spill_m v = true ↔ planarDist v > spill_m / 2 := by
  rw [keepVertex]
  exact decide_eq_true_iff

lemma oldToNew_lt_of_keep {vs : List Point3} {spill_m : ℝ} {i : ℕ}
    (h : keepIndex vs spill_m i = true) :
    oldToNew vs spill_m i < (vs.filter (keepVertex spill_m)).length := by
  rw [← range_filter_keep_length vs spill_m]
  have hi : i < vs.length := keepIndex_lt_length h
  have hmem : i ∈ (List.range vs.length).filter (keepIndex vs spill_m) :=
    List.mem_filter.mpr ⟨List.mem_range.mpr hi, h⟩
  have hmap : oldToNew vs spill_m i
      ∈ ((List.range vs.length).filter (keepIndex vs spill_m)).map
          (fun k => ((List.range k).filter (keepIndex vs spill_m)).length) :=
    List.mem_map.mpr ⟨i, hmem, rfl⟩
  rw [map_rank_filter_range] at hmap
  exact List.mem_range.mp hmap

/-- C2: with `spillDiameter > 0` every surviving vertex lies strictly outside
the spill radius, a face survives exactly when all of its vertices do (and is
remapped through `old_to_new`), every output face index addresses the output
vertex buffer, and the new indices of the kept vertices are exactly
`0, 1, …, k-1` in order (contiguous, re-based from 0). -/
theorem spill_hole_filter_props (mesh : Mesh) (spill_m : ℝ) (hs : 0 < spill_m)
    (hb : ∀ f ∈ mesh.faces, ∀ i ∈ f, i < mesh.vertices.length) :
    (∀ v ∈ (applySpillHole mesh spill_m).vertices, planarDist v > spill_m / 2) ∧
    ((applySpillHole mesh spill_m).faces
      = (mesh.faces.filter (fun f => f.all (keepIndex mesh.vertices spill_m))).map
          (fun f => f.map (oldToNew mesh.vertices spill_m))) ∧
    (∀ f ∈ (applySpillHole mesh spill_m).faces, ∀ idx ∈ f,
        idx < (applySpillHole mesh spill_m).vertices.length) ∧
    (((List.range mesh.vertices.length).filter (keepIndex mesh.vertices spill_m)).map
        (oldToNew mesh.vertices spill_m)
      = List.range (applySpillHole mesh spill_m).vertices.length) := by
  have hverts : (applySpillHole mesh spill_m).vertices
      = mesh.vertices.filter (keepVertex spill_m) := by
    rw [applySpillHole, if_pos hs]
  have hfaces : (applySpillHole mesh spill_m).faces
      = (mesh.faces.filter (fun f => f.all (keepIndex mesh.vertices spill_m))).map
          (fun f => f.map (oldToNew mesh.vertices spill_m)) := by
    rw [applySpillHole, if_pos hs]
  refine ⟨?_, hfaces, ?_, ?_⟩
  · intro v hv
    rw [hverts] at hv
    exact keepVertex_eq_true_iff.mp (List.mem_filter.mp hv).2
  · intro f hf idx hidx
    rw [hfaces] at hf
    obtain ⟨f₀, hf₀, rfl⟩ := List.mem_map.mp hf
    obtain ⟨hmem₀, hall⟩ := List.mem_filter.mp hf₀
    obtain ⟨i₀, hi₀, rfl⟩ := List.mem_map.mp hidx
    have hkeep : keepIndex mesh.vertices spill_m i₀ = true :=
      List.all_eq_true.mp hall i₀ hi₀
    rw [hverts]
    exact oldToNew_lt_of_keep hkeep
  · rw [hverts, ← range_filter_keep_length mesh.vertices spill_m]
    exact map_rank_filter_range (keepIndex mesh.vertices spill_m) mesh.vertices.length

/-- A small concrete mesh used to instantiate the filter theorems. -/
def meshA : Mesh := ⟨[(0, 0, 0), (1, 0, 0)], [[0, 1, 0]]⟩

/-- A second concrete mesh, both of whose vertices survive a spill cut of
diameter 1. -/
def meshB : Mesh := ⟨[(1, 0, 0), (2, 0, 0)], []⟩

/-- A third concrete mesh for the no-op filter instance. -/
def meshC : Mesh := ⟨[(1, 2, 3)], [[0, 0, 0]]⟩

/-- C2 witness: the theorem applied to `meshA` with `spillDiameter = 1`; the
new indices of the kept vertices are exactly an initial range. -/
theorem spill_hole_filter_props_witness :
    ((List.range meshA.vertices.length).filter (keepIndex meshA.vertices 1)).map
        (oldToNew meshA.vertices 1)
      = List.range (applySpillHole meshA 1).vertices.length :=
  (spill_hole_filter_props meshA 1 (by norm_num) (by decide)).2.2.2

/-- C7: with `spillDiameter ≤ 0` (in particular `= 0`) the spill-hole filter
is the identity transform on the mesh. -/
theorem spill_hole_noop (mesh : Mesh) (spill_m : ℝ) (hs : spill_m ≤ 0) :
    applySpillHole mesh spill_m = mesh := by
  rw [applySpillHole, if_neg (not_lt.mpr hs)]

/-- C7 witness: the filter at `spillDiameter = 0` leaves `meshC` unchanged. -/
theorem spill_hole_noop_witness : applySpillHole meshC 0 = meshC :=
  spill_hole_noop meshC 0 (le_refl 0)

/-- C10: the filter preserves order: `old_to_new` is strictly increasing on
kept indices, the surviving vertices are the in-order sublist of the input
selected by the keep mask, and the surviving faces are the in-order sublist of
the input faces with each index remapped in place (winding unchanged). -/
theorem spill_hole_preserves_order (mesh : Mesh) (spill_m : ℝ) (hs : 0 < spill_m) :
    (∀ i j : ℕ, i < j → keepIndex mesh.vertices spill_m i = true →
        keepIndex mesh.vertices spill_m j = true →
        oldToNew mesh.vertices spill_m i < oldToNew mesh.vertices spill_m j) ∧
    ((applySpillHole mesh spill_m).vertices = mesh.vertices.filter (keepVertex spill_m)) ∧
    ((applySpillHole mesh spill_m).faces
      = (mesh.faces.filter (fun f => f.all (keepIndex mesh.vertices spill_m))).map
          (fun f => f.map (oldToNew mesh.vertices spill_m))) := by
  refine ⟨?_, ?_, ?_⟩
  · intro i j hij hki _
    exact rank_lt_rank _ hij hki
  · rw [applySpillHole, if_pos hs]
  · rw [applySpillHole, if_pos hs]

/-- C10 witness: on `meshB` with `spillDiameter = 1` both vertices are kept
and their new indices are in the same strict order as the old ones. -/
theorem spill_hole_preserves_order_witness :
    oldToNew meshB.vertices 1 0 < oldToNew meshB.vertices 1 1 := by
  have hk0 : keepIndex meshB.vertices 1 0 = true := by
    show keepVertex 1 (1, 0, 0) = true
    rw [keepVertex_eq_true_iff]
    show planarDist (1, 0, 0) > 1 / 2
    rw [planarDist]
    have h1 : ((1 : ℝ) ^ 2 + (0 : ℝ) ^ 2) = 1 ^ 2 := by norm_num
    rw [h1, Real.sqrt_sq_eq_abs]
    norm_num
  have hk1 : keepIndex meshB.vertices 1 1 = true := by
    show keepVertex 1 (2, 0, 0) = true
    rw [keepVertex_eq_true_iff]
    show planarDist (2, 0, 0) > 1 / 2
    rw [planarDist]
    have h2 : ((2 : ℝ) ^ 2 + (0 : ℝ) ^ 2) = 2 ^ 2 := by norm_num
    rw [h2, Real.sqrt_sq_eq_abs]
    norm_num
  exact (spill_hole_preserves_order meshB 1 (by norm_num)).1 0 1 (by norm_num) hk0 hk1

lemma planarDist_rotateZ (angle : ℝ) (v : Point3) :
    planarDist (rotateZ angle v) = planarDist v := by
  obtain ⟨x, y, z⟩ := v
  show Real.sqrt ((x * Real.cos angle - y * Real.sin angle) ^ 2
      + (x * Real.sin angle + y * Real.cos angle) ^ 2) = Real.sqrt (x ^ 2 + y ^ 2)
  congr 1
  linear_combination (x ^ 2 + y ^ 2) * Real.sin_sq_add_cos_sq angle

lemma assembled_planar_le (radius inflation_factor : ℝ)
    (num_gores phi_steps theta_steps : ℕ) (hr : 0 ≤ radius) :
    ∀ v ∈ (assemble_full_parachute radius num_gores phi_steps theta_steps
        inflation_factor).1, planarDist v ≤ radius := by
  intro v hv
  rw [assemble_full_parachute] at hv
  obtain ⟨g, hg, hv⟩ := List.mem_flatMap.mp hv
  obtain ⟨w, hw, rfl⟩ := List.mem_map.mp hv
  rw [planarDist_rotateZ]
  obtain ⟨row, hrow, hwr⟩ := List.mem_flatten.mp hw
  rw [generate_gore_mesh] at hrow
  obtain ⟨θ, hθ, rfl⟩ := List.mem_map.mp hrow
  obtain ⟨φ, hφ, rfl⟩ := List.mem_map.mp hwr
  show Real.sqrt ((radius * Real.sin φ * Real.sin θ) ^ 2
      + (radius * Real.sin φ * Real.cos θ) ^ 2) ≤ radius
  have hsq : (radius * Real.sin φ * Real.sin θ) ^ 2
      + (radius * Real.sin φ * Real.cos θ) ^ 2 = (radius * Real.sin φ) ^ 2 := by
    linear_combination (radius * Real.sin φ) ^ 2 * Real.sin_sq_add_cos_sq θ
  rw [hsq, Real.sqrt_sq_eq_abs, abs_mul, abs_of_nonneg hr]
  calc radius * |Real.sin φ|
      ≤ radius * 1 := mul_le_mul_of_nonneg_left (Real.abs_sin_le_one φ) hr
    _ = radius := mul_one radius

lemma assembled_face_ne_nil (radius inflation_factor : ℝ)
    (num_gores phi_steps theta_steps : ℕ) :
    ∀ f ∈ (assemble_full_parachute radius num_gores phi_steps theta_steps
        inflation_factor).2, f ≠ [] := by
  intro f hf
  rw [assemble_full_parachute] at hf
  obtain ⟨g, hg, hf⟩ := List.mem_flatMap.mp hf
  rw [gridFaces] at hf
  obtain ⟨i, hi, hf⟩ := List.mem_flatMap.mp hf
  obtain ⟨j, hj, hf⟩ := List.mem_flatMap.mp hf
  simp only [List.mem_cons, List.not_mem_nil, or_false] at hf
  rcases hf with rfl | rfl
  · exact List.cons_ne_nil _ _
  · exact List.cons_ne_nil _ _

lemma export_empty_of_large_spill (radius spill_m inflation_factor : ℝ) (num_gores : ℕ)
    (hr : 0 ≤ radius) (hs : 0 < spill_m) (hrs : 2 * radius ≤ spill_m) :
    (export_parachute_3d_mesh radius num_gores spill_m inflation_factor).vertices = [] ∧
    (export_parachute_3d_mesh radius num_gores spill_m inflation_factor).faces = [] := by
  have hkeepV : ∀ v ∈ (assemble_full_parachute radius num_gores 100 50
      inflation_factor).1, keepVertex spill_m v = false := by
    intro v hv
    rw [keepVertex, decide_eq_false_iff_not]
    exact not_lt.mpr (le_trans
      (assembled_planar_le radius inflation_factor num_gores 100 50 hr v hv)
      (by linarith))
  have hkeepI : ∀ i : ℕ, keepIndex (assemble_full_parachute radius num_gores 100 50
      inflation_factor).1 spill_m i = false := by
    intro i
    cases hg : (assemble_full_parachute radius num_gores 100 50
        inflation_factor).1.get? i with
    | none => rw [keepIndex, hg]
    | some v =>
        rw [keepIndex, hg]
        exact hkeepV v (List.get?_mem hg)
  constructor
  · rw [export_parachute_3d_mesh, applySpillHole, if_pos hs]
    exact List.filter_eq_nil.mpr (fun v hv => by rw [hkeepV v hv]; simp)
  · rw [export_parachute_3d_mesh, applySpillHole, if_pos hs]
    show ((assemble_full_parachute radius num_gores 100 50 inflation_factor).2.filter
        (fun f => f.all (keepIndex (assemble_full_parachute radius num_gores 100 50
          inflation_factor).1 spill_m))).map
        (fun f => f.map (oldToNew (assemble_full_parachute radius num_gores 100 50
          inflation_factor).1 spill_m)) = []
    rw [List.map_eq_nil]
    apply List.filter_eq_nil.mpr
    intro f hf hall
    obtain ⟨x, hx⟩ := List.exists_mem_of_ne_nil f
      (assembled_face_ne_nil radius inflation_factor num_gores 100 50 f hf)
    have := List.all_eq_true.mp hall x hx
    rw [hkeepI x] at this
    exact Bool.false_ne_true this

/-- C3 counterexample: at `radius = 1`, `numGores = 1`,
`spillDiameter = 2 ≥` the full canopy diameter, the pipeline does not raise
any error — the code has no `GeometryDegenerateError` at all — and instead
produces an entirely empty mesh, which it would pass on to the STL export. -/
theorem export_no_degenerate_detection_counterexample :
    (export_parachute_3d_mesh 1 1 2 1).vertices = [] ∧
    (export_parachute_3d_mesh 1 1 2 1).faces = [] :=
  export_empty_of_large_spill 1 2 1 1 (by norm_num) (by norm_num) (by norm_num)

/-- C3 (amended): whenever the spill diameter is positive and at least the
full canopy diameter `2·radius`, the spill-hole cut leaves zero surviving
vertices and zero faces, and the pipeline silently exports this empty mesh; no
degenerate-geometry error is detected or raised. -/
theorem export_silently_empty_on_large_spill (radius spill_m inflation_factor : ℝ)
    (num_gores : ℕ) (hr : 0 ≤ radius) (hs : 0 < spill_m) (hrs : 2 * radius ≤ spill_m) :
    (export_parachute_3d_mesh radius num_gores spill_m inflation_factor).vertices = [] ∧
    (export_parachute_3d_mesh radius num_gores spill_m inflation_factor).faces = [] :=
  export_empty_of_large_spill radius spill_m inflation_factor num_gores hr hs hrs

/-- C3 (amended) witness: at `radius = 1/2`, `numGores = 2`,
`spillDiameter = 3` the exported mesh is empty. -/
theorem export_silently_empty_on_large_spill_witness :
    (export_parachute_3d_mesh (1/2) 2 3 (11/10)).vertices = [] ∧
    (export_parachute_3d_mesh (1/2) 2 3 (11/10)).faces = [] :=
  export_silently_empty_on_large_spill (1/2) 3 (11/10) 2 (by norm_num) (by norm_num)
    (by norm_num)

/-! ## Gore pattern rendering and the module-level run -/

/-- The drawing produced by `plot_and_save_gore`: the mirrored gore outline,
the seam-allowance outline, and the optional spill-hole circle (center and
radius).  Axis labels, the title, and the PDF write are presentation-layer
side effects with no geometric content and are not modelled. -/
structure GorePlot where
  outline : List (ℝ × ℝ)
  seam_outline : List (ℝ × ℝ)
  spill_marker : Option ((ℝ × ℝ) × ℝ)

/-- Embedding of `plot_and_save_gore(diameter, radius, num_gores, seam_cm,
seam_m, spill_cm, spill_m)` (the `diameter`, `seam_cm` and `spill_cm`
arguments only feed labels and the output filename): the gore curve is
mirrored through the centerline, a second outline is offset horizontally by
`seam_m`, and for `spill_m > 0` a circle of radius `π·(spill_m/2)/num_gores`
is drawn at the origin (the apex). -/
noncomputable def plot_and_save_gore (radius : ℝ) (num_gores : ℕ)
    (seam_m spill_m : ℝ) : GorePlot :=
  let points := calculate_hemispherical_gore_coordinates radius num_gores 100
  let x_right := points.map Prod.fst
  let y_vals := points.map Prod.snd
  let x_left := x_right.map (fun x => -x)
  let x_full := x_left.reverse ++ [x_right.headI] ++ x_right
  let y_full := y_vals.reverse ++ [y_vals.headI] ++ y_vals
  let x_right_seam := x_right.map (fun x => x + seam_m)
  let x_left_seam := x_right.map (fun x => -x - seam_m)
  let x_full_seam := x_left_seam.reverse ++ [x_right_seam.headI] ++ x_right_seam
  { outline := x_full.zip y_full
    seam_outline := x_full_seam.zip y_full
    spill_marker :=
      if 0 < spill_m then
        some ((0, 0), Real.pi * (spill_m / 2) / (num_gores : ℝ))
      else none }

/-- C9: whenever `spillDiameter > 0` the spill-hole marker is a circle
centered at the apex (origin) of radius exactly `π·(spillDiameter/2)/numGores`,
and no marker is drawn when `spillDiameter ≤ 0`. -/
theorem spill_marker_props (radius : ℝ) (num_gores : ℕ) (seam_m spill_m : ℝ) :
    (0 < spill_m →
      (plot_and_save_gore radius num_gores seam_m spill_m).spill_marker
        = some ((0, 0), Real.pi * (spill_m / 2) / (num_gores : ℝ))) ∧
    (spill_m ≤ 0 →
      (plot_and_save_gore radius num_gores seam_m spill_m).spill_marker = none) := by
  constructor
  · intro h
    show (if 0 < spill_m then
        some (((0 : ℝ), (0 : ℝ)), Real.pi * (spill_m / 2) / (num_gores : ℝ))
      else none) = some ((0, 0), Real.pi * (spill_m / 2) / (num_gores : ℝ))
    rw [if_pos h]
  · intro h
    show (if 0 < spill_m then
        some (((0 : ℝ), (0 : ℝ)), Real.pi * (spill_m / 2) / (num_gores : ℝ))
      else none) = none
    rw [if_neg (not_lt.mpr h)]

/-- C9 witness: at `spillDiameter = 1`, `numGores = 4` the marker is the
circle at the origin of radius `π·(1/2)/4`. -/
theorem spill_marker_props_witness :
    (plot_and_save_gore 1 4 0 1).spill_marker
      = some ((0, 0), Real.pi * ((1 : ℝ) / 2) / ((4 : ℕ) : ℝ)) :=
  (spill_marker_props 1 4 0 1).1 (by norm_num)

/-! ## Module-level input validation and run -/

/-- The artifacts a successful run writes: the gore-pattern PDF drawing and
the canopy STL mesh. -/
structure RunArtifacts where
  gore_pdf : GorePlot
  canopy_stl : Mesh

/-- Embedding of the module-level `try` block: each input is checked in the
order the script reads them, and the first violated constraint raises
`ValueError` with the script's message, which the `except` handler turns
into a terminated run.  On success the derived parameters are returned. -/
noncomputable def validate_inputs (diameter : ℝ) (num_gores : ℤ)
    (seam_cm spill_cm : ℝ) : Except String (ℝ × ℤ × ℝ × ℝ) :=
  if diameter ≤ 0 then .error "Diameter must be positive."
  else if num_gores < 1 then .error "There must be at least 1 gore."
  else if seam_cm / 100 < 0 then .error "Seam allowance can't be negative."
  else if spill_cm / 100 < 0 then .error "Spill hole can't be negative."
  else .ok (diameter / 2, num_gores, seam_cm / 100, spill_cm / 100)

/-- Embedding of the whole script run: validation first; only on success are
the 2-D pattern and the 3-D mesh computed and written (with the source's
default `inflation_factor = 1.1`).  An input error halts the run with no
artifact produced. -/
noncomputable def run_program (diameter : ℝ) (num_gores : ℤ)
    (seam_cm spill_cm : ℝ) : Except String RunArtifacts :=
  match validate_inputs diameter num_gores seam_cm spill_cm with
  | .error e => .error e
  | .ok (radius, g, seam_m, spill_m) =>
      .ok { gore_pdf := plot_and_save_gore radius g.toNat seam_m spill_m
            canopy_stl := export_parachute_3d_mesh radius g.toNat spill_m (11/10) }

/-- C8: any input violating the parameter constraints (diameter ≤ 0, gore
count < 1, seam allowance < 0, or spill diameter < 0) makes the run fail with
a validation error before any geometry is computed; no artifact is
produced. -/
theorem invalid_inputs_halt_run (diameter : ℝ) (num_gores : ℤ)
    (seam_cm spill_cm : ℝ)
    (h : diameter ≤ 0 ∨ num_gores < 1 ∨ seam_cm < 0 ∨ spill_cm < 0) :
    ∃ e : String, run_program diameter num_gores seam_cm spill_cm
      = Except.error e := by
  suffices hv : ∃ e : String, validate_inputs diameter num_gores seam_cm spill_cm
      = Except.error e by
    obtain ⟨e, he⟩ := hv
    exact ⟨e, by rw [run_program, he]⟩
  rw [validate_inputs]
  split_ifs with h1 h2 h3 h4
  · exact ⟨_, rfl⟩
  · exact ⟨_, rfl⟩
  · exact ⟨_, rfl⟩
  · exact ⟨_, rfl⟩
  · exfalso
    rcases h with h | h | h | h
    · exact h1 h
    · exact h2 h
    · exact h3 (by linarith)
    · exact h4 (by linarith)

/-- C8 witness: a negative diameter makes the run fail with a validation
error. -/
theorem invalid_inputs_halt_run_witness :
    ∃ e : String, run_program (-1) 12 0 0 = Except.error e :=
  invalid_inputs_halt_run (-1) 12 0 0 (Or.inl (by norm_num))

end ParachuteGore
